import Mathlib

/-!
Shallow embedding of `src/ip_optimizer.py` (class `CloudflareIPOptimizer`).

Python strings are modelled as Lean `String` (operating on `String.data`,
a `List Char`); Python's total string operations (`str.strip`, `str.split`,
`in`, dict assignment) are modelled by total Lean functions; fallible
operations (`int(...)`, `ipaddress.IPv4Address(...)`, functions whose
`try/except` returns `None`) return `Option`.  Randomness
(`random.randint`) is modelled by an oracle stream `rng : Nat → Nat`
together with a running position in the stream.  Network and clock
effects (`aiohttp` responses, `time.time()`) are modelled as explicit
inputs to the pure cores of the corresponding methods.
-/

/-- ASCII whitespace stripped by Python's `str.strip()`. -/
def isPyWhitespace (c : Char) : Bool :=
  c = ' ' || c = '\t' || c = '\n' || c = '\r' || c = Char.ofNat 11 || c = Char.ofNat 12

/-- `str.strip()` on a character list. -/
def pyStripChars (l : List Char) : List Char :=
  ((l.dropWhile isPyWhitespace).reverse.dropWhile isPyWhitespace).reverse

/-- Python `s.strip()`. -/
def pyStrip (s : String) : String := String.mk (pyStripChars s.data)

/-- Helper for `pySplit`: accumulates the current field (reversed). -/
def pySplitAux (c : Char) : List Char → List Char → List String
  | [], acc => [String.mk acc.reverse]
  | x :: xs, acc =>
    if x = c then String.mk acc.reverse :: pySplitAux c xs []
    else pySplitAux c xs (x :: acc)

/-- Python `s.split(c)` for a one-character separator: splits at every
occurrence, keeping empty fields (so `"".split(c) = [""]`). -/
def pySplit (s : String) (c : Char) : List String := pySplitAux c s.data []

/-- Helper for `pySplitOnce`. -/
def pySplitOnceAux (c : Char) : List Char → List Char → String × String
  | [], acc => (String.mk acc.reverse, "")
  | x :: xs, acc =>
    if x = c then (String.mk acc.reverse, String.mk xs)
    else pySplitOnceAux c xs (x :: acc)

/-- Python `s.split(c, 1)` as a pair (before, after); every caller in the
source guards the call with `c in s`, in which case Python returns exactly
these two pieces. -/
def pySplitOnce (s : String) (c : Char) : String × String := pySplitOnceAux c s.data []

/-- Python `c in s` for a single character `c`. -/
def pyContainsChar (s : String) (c : Char) : Bool := s.data.contains c

/-- Digits of an integer literal after the first digit: Python `int()`
accepts single underscores between digits. -/
def pyDigitsTail : List Char → Bool
  | [] => true
  | '_' :: [] => false
  | '_' :: d :: rest => d.isDigit && pyDigitsTail rest
  | d :: rest => d.isDigit && pyDigitsTail rest

/-- A nonempty digit run (with Python's underscore rule) after an optional sign. -/
def pyDigitsOk : List Char → Bool
  | [] => false
  | d :: rest => d.isDigit && pyDigitsTail rest

/-- Numeric value of a digit run, ignoring underscores. -/
def digitsVal (l : List Char) : Nat :=
  l.foldl (fun a c => if c = '_' then a else a * 10 + (c.toNat - 48)) 0

/-- Python `int(s)` on a decimal string: strips whitespace, allows one
sign, then digits with single underscores between them; anything else
raises `ValueError`, modelled as `none`. -/
def pyInt (s : String) : Option Int :=
  match pyStripChars s.data with
  | '+' :: rest => if pyDigitsOk rest then some (digitsVal rest) else none
  | '-' :: rest => if pyDigitsOk rest then some (-(digitsVal rest : Int)) else none
  | rest => if pyDigitsOk rest then some (digitsVal rest) else none

/-- One dotted-quad octet as accepted by `ipaddress.IPv4Address`: 1–3
ASCII digits, no leading zero, value at most 255. -/
def validOctet (s : String) : Bool :=
  let l := s.data
  !l.isEmpty && decide (l.length ≤ 3) && l.all Char.isDigit &&
    (decide (l.length = 1) || decide (l.head? ≠ some '0')) && decide (digitsVal l ≤ 255)

/-- `CloudflareIPOptimizer._is_valid_ip`: `ipaddress.IPv4Address(ip)`
succeeds exactly on four valid dot-separated octets. -/
def _is_valid_ip (s : String) : Bool :=
  match pySplit s '.' with
  | [a, b, c, d] => validOctet a && validOctet b && validOctet c && validOctet d
  | _ => false

/-- `CloudflareIPOptimizer._parse_proxy_ip_line`: parse one line of the
proxy list against the target port; `none` models Python's `return None`. -/
def _parse_proxy_ip_line (line targetPort : String) : Option String :=
  let line := pyStrip line
  if line = "" then none
  else
    let mc : String × String :=
      if pyContainsChar line '#' then
        let p := pySplitOnce line '#'
        (pyStrip p.1, pyStrip p.2)
      else (line, "")
    let mainPart := mc.1
    let comment := mc.2
    let ipPort : Option (String × String) :=
      if pyContainsChar mainPart ':' then
        match pySplit mainPart ':' with
        | [i, p] => some (pyStrip i, pyStrip p)
        | _ => none
      else some (mainPart, "443")
    match ipPort with
    | none => none
    | some (ip, port) =>
      if !_is_valid_ip ip then none
      else
        match pyInt port with
        | none => none
        | some n =>
          if n < 1 || n > 65535 then none
          else if port ≠ targetPort then none
          else if comment ≠ "" then some (ip ++ ":" ++ port ++ "#" ++ comment)
          else some (ip ++ ":" ++ port)

/-- Python dict assignment `d[k] = v` on a dict represented as an
insertion-ordered association list: replace the value in place if the key
exists, else append the new binding. -/
def dictInsert (d : List (String × String)) (k v : String) : List (String × String) :=
  match d with
  | [] => [(k, v)]
  | kv :: rest => if kv.1 = k then (k, v) :: rest else kv :: dictInsert rest k v

/-- Python `d.get(k)` on the association-list dict. -/
def dictGet (d : List (String × String)) (k : String) : Option String :=
  (d.find? (fun kv => kv.1 == k)).map (fun kv => kv.2)

/-- A Python dict literal: its bindings applied left to right, so a later
duplicate key overrides an earlier one. -/
def pyDictOfBindings (l : List (String × String)) : List (String × String) :=
  l.foldl (fun d kv => dictInsert d kv.1 kv.2) []

/-- Python truthiness of `d.get(k)`: `None` and the empty string are falsy. -/
def pyTruthy : Option String → Bool
  | none => false
  | some s => s != ""

/-- Body of the `for line in lines` loop of `_parse_trace_response`: a
non-blank line containing `=` binds the text before the first `=` to the
remainder of the line; every other line is ignored. -/
def traceLineStep (d : List (String × String)) (line : String) : List (String × String) :=
  let t := pyStrip line
  if t != "" && pyContainsChar t '=' then
    let kv := pySplitOnce t '='
    dictInsert d kv.1 kv.2
  else d

/-- `CloudflareIPOptimizer._parse_trace_response`: split the body into
lines and fold `traceLineStep` into an initially empty dict.  The `try`
body uses only total string and dict operations, so the `except` branch
returning `None` is dead code and the translation is always `some`. -/
def _parse_trace_response (responseText : String) : Option (List (String × String)) :=
  some ((pySplit responseText '\n').foldl traceLineStep [])

/-- The key/value binding a single line contributes, if any. -/
def traceLineBinding (line : String) : Option (String × String) :=
  let t := pyStrip line
  if t != "" && pyContainsChar t '=' then some (pySplitOnce t '=') else none

/-- The value the parsed trace mapping should hold for key `k`: the
remainder of the last non-blank `=`-line of `s` whose key is `k`. -/
def lastBindingLookup (s k : String) : Option String :=
  (((pySplit s '\n').filterMap traceLineBinding).reverse.find?
      (fun kv => kv.1 == k)).map (fun kv => kv.2)

/-- One successful HTTP exchange of `_single_test`, as the Python dict it
returns.  Latencies (Python floats from `time.time()`) are modelled as
rationals. -/
structure SingleTestData where
  ip : String
  port : Int
  latency : ℚ
  colo : String
  type : String
  response_ip : String
deriving DecidableEq, Repr

/-- Pure core of `CloudflareIPOptimizer._single_test`: the HTTP response is
an explicit input (`status`, `body`) and the measured latency an explicit
rational; a network error caught by the `except` branch behaves exactly
like a non-200 status (both return `none`). -/
def _single_test (ip : String) (port : Int) (status : Nat) (latency : ℚ)
    (body : String) : Option SingleTestData :=
  if status = 200 then
    match _parse_trace_response body with
    | none => none
    | some traceData =>
      if traceData ≠ [] ∧ pyTruthy (dictGet traceData "ip")
          ∧ pyTruthy (dictGet traceData "colo") then
        let responseIp := (dictGet traceData "ip").getD ""
        let ipType :=
          if pyContainsChar responseIp ':' || responseIp == ip then "proxy" else "official"
        some { ip := ip, port := port, latency := latency,
               colo := (dictGet traceData "colo").getD "",
               type := ipType, response_ip := responseIp }
      else none
  else none

/-- The `colo_to_country` dict literal of `_get_country_from_colo`, as the
source writes it (duplicate keys included, in source order). -/
def colo_to_country : List (String × String) :=
  [("SJC", "CN"), ("LAX", "CN"), ("HKG", "CN"), ("NRT", "CN"), ("ICN", "CN"),
   ("ATL", "US"), ("BOS", "US"), ("BUF", "US"), ("CHI", "US"), ("DEN", "US"),
   ("DFW", "US"), ("EWR", "US"), ("IAD", "US"), ("LAS", "US"), ("LAX", "US"),
   ("MIA", "US"), ("MSP", "US"), ("ORD", "US"), ("PDX", "US"), ("PHX", "US"),
   ("SAN", "US"), ("SEA", "US"), ("SJC", "US"), ("STL", "US"),
   ("NRT", "JP"), ("KIX", "JP"),
   ("ICN", "KR"),
   ("HKG", "HK"),
   ("TPE", "TW"),
   ("SIN", "SG"),
   ("LHR", "GB"), ("MAN", "GB"),
   ("FRA", "DE"), ("DUS", "DE"),
   ("CDG", "FR"), ("MRS", "FR"),
   ("AMS", "NL"),
   ("SYD", "AU"), ("MEL", "AU"), ("PER", "AU"),
   ("YYZ", "CA"), ("YVR", "CA"),
   ("GRU", "BR"),
   ("BOM", "IN"), ("DEL", "IN"), ("MAA", "IN")]

/-- The dict value of the `colo_to_country` literal: Python keeps only the
last binding of each repeated key. -/
def coloCountryDict : List (String × String) := pyDictOfBindings colo_to_country

/-- Python `c.upper()` on one ASCII character. -/
def pyUpperChar (c : Char) : Char :=
  if 'a' ≤ c && c ≤ 'z' then Char.ofNat (c.toNat - 32) else c

/-- Python `s.upper()` (the colo codes are ASCII). -/
def pyUpper (s : String) : String := String.mk (s.data.map pyUpperChar)

/-- Static-table lookup step of `_get_country_from_colo`:
`colo_to_country.get(colo.upper())`. -/
def staticColoLookup (colo : String) : Option String :=
  dictGet coloCountryDict (pyUpper colo)

/-- `_get_country_from_colo`, with the remote Cloudflare location API
modelled as an oracle; when both the static table and the oracle fail the
uppercased colo code itself is returned. -/
def _get_country_from_colo (remote : String → Option String) (colo : String) : String :=
  match staticColoLookup colo with
  | some c => c
  | none =>
    match remote (pyUpper colo) with
    | some c => c
    | none => pyUpper colo

/-- `IPResult` dataclass. -/
structure IPResult where
  ip : String
  port : Int
  latency : ℚ
  colo : String
  country : String
  type : String
deriving DecidableEq, Repr

/-- An already-parsed `ipaddress.IPv4Network(cidr, strict=False)`: `addr`
is the masked network address as a 32-bit number, `maskBits` the prefix
length. -/
structure IPv4Net where
  addr : Nat
  maskBits : Nat
deriving DecidableEq, Repr

/-- `network.num_addresses`. -/
def IPv4Net.numAddresses (n : IPv4Net) : Nat := 2 ^ (32 - n.maskBits)

/-- `network.broadcast_address` as a number. -/
def IPv4Net.broadcastAddr (n : IPv4Net) : Nat := n.addr + n.numAddresses - 1

/-- `set.add(x)` on a set modelled as an insertion-ordered duplicate-free
list (only membership and size of Python sets are observed by the code). -/
def setAdd (s : List Nat) (x : Nat) : List Nat := if x ∈ s then s else s ++ [x]

/-- `set.update(elems)`. -/
def setUpdate (s : List Nat) (elems : List Nat) : List Nat := elems.foldl setAdd s

/-- The `while` loop of `_generate_ips_from_cidr`: `rem` is the remaining
attempt budget (`max_attempts - attempts`), `t` the rng position;
`random.randint(1, max_hosts)` is modelled as `1 + rng t % maxHosts`,
which ranges over exactly `1..maxHosts`. -/
def genIpsAux (rng : Nat → Nat) (base maxHosts actual : Nat) :
    Nat → Nat → List Nat → List Nat × Nat
  | 0, t, ips => (ips, t)
  | rem + 1, t, ips =>
    if ips.length < actual then
      genIpsAux rng base maxHosts actual rem (t + 1) (setAdd ips (base + (1 + rng t % maxHosts)))
    else (ips, t)

/-- `CloudflareIPOptimizer._generate_ips_from_cidr(cidr, count)` on an
already-parsed network: draw up to `min count max_hosts` distinct host
addresses, with an attempt budget of `10 * actual_count`; a block with no
usable hosts (`max_hosts <= 0`) yields `[]`.  Returns the drawn addresses
(in insertion order) with the advanced rng position. -/
def _generate_ips_from_cidr (rng : Nat → Nat) (t : Nat) (network : IPv4Net)
    (count : Nat) : List Nat × Nat :=
  let maxHostsZ : Int := (network.numAddresses : Int) - 2
  if maxHostsZ ≤ 0 then ([], t)
  else
    let maxHosts := maxHostsZ.toNat
    let actual := min count maxHosts
    genIpsAux rng network.addr maxHosts actual (actual * 10) t []

/-- The `for cidr in cidrs` body of one round of
`_generate_ips_from_cidrs`, with the early `break` once the accumulated
set reaches the target. -/
def cidrsRoundAux (rng : Nat → Nat) (target roundNum : Nat) :
    List IPv4Net → Nat → List Nat → List Nat × Nat
  | [], t, ips => (ips, t)
  | c :: cs, t, ips =>
    if ips.length ≥ target then (ips, t)
    else
      let r := _generate_ips_from_cidr rng t c roundNum
      cidrsRoundAux rng target roundNum cs r.2 (setUpdate ips r.1)

/-- The outer `while` loop of `_generate_ips_from_cidrs`: it runs while
`len(ips) < target` and `round_num <= 100`; `fuel` is the number of round
numbers still admissible (initially 100), and each round passes its own
number as the per-block `count`. -/
def cidrsRoundsAux (rng : Nat → Nat) (cidrs : List IPv4Net) (target : Nat) :
    Nat → Nat → Nat → List Nat → List Nat
  | 0, _, _, ips => ips
  | fuel + 1, roundNum, t, ips =>
    if ips.length < target then
      let r := cidrsRoundAux rng target roundNum cidrs t ips
      cidrsRoundsAux rng cidrs target fuel (roundNum + 1) r.2 r.1
    else ips

/-- `CloudflareIPOptimizer._generate_ips_from_cidrs`: rounds numbered
1, 2, … (at most 100); the final unique set is truncated to `maxIps`. -/
def _generate_ips_from_cidrs (rng : Nat → Nat) (cidrs : List IPv4Net)
    (maxIps : Nat) : List Nat :=
  (cidrsRoundsAux rng cidrs maxIps 100 1 0 []).take maxIps

/-- The sampling algorithm exactly as the spec sentence behind claim C2
states it: in each round draw ONE random host address from every block
still under the target, adding it to the unique set if absent; stop when
the set reaches the target or after the 100th round. -/
def specSamplerRound (rng : Nat → Nat) (target : Nat) :
    List IPv4Net → Nat → List Nat → List Nat × Nat
  | [], t, ips => (ips, t)
  | c :: cs, t, ips =>
    if ips.length ≥ target then (ips, t)
    else
      let r := _generate_ips_from_cidr rng t c 1
      specSamplerRound rng target cs r.2 (setUpdate ips r.1)

/-- Rounds of the spec-worded one-address-per-block sampler. -/
def specSamplerRounds (rng : Nat → Nat) (cidrs : List IPv4Net) (target : Nat) :
    Nat → Nat → List Nat → List Nat
  | 0, _, ips => ips
  | fuel + 1, t, ips =>
    if ips.length < target then
      let r := specSamplerRound rng target cidrs t ips
      specSamplerRounds rng cidrs target fuel r.2 r.1
    else ips

/-- The spec-worded sampler of claim C2 (one draw per block per round). -/
def specSamplerOnePerRound (rng : Nat → Nat) (cidrs : List IPv4Net)
    (maxIps : Nat) : List Nat :=
  (specSamplerRounds rng cidrs maxIps 100 0 []).take maxIps

/-- The `ip:port` dedup key of a result: the f-string `f"{r.ip}:{r.port}"`
of `get_country_ips_from_all_sources`. -/
def IPResult.key (r : IPResult) : String := r.ip ++ ":" ++ toString r.port

/-- The merge step of `get_country_ips_from_all_sources`: keys already in
the accumulated list are collected into `existing_ips`, and the source's
results whose key occurs there are dropped; the remainder is appended. -/
def mergeSourceResults (allResults sourceResults : List IPResult) : List IPResult :=
  let existing := allResults.map IPResult.key
  allResults ++ sourceResults.filter (fun r => !existing.contains r.key)

/-- The source loop of `get_country_ips_from_all_sources`, with each
source's (country-filtered) result list supplied as data: stop once the
accumulated count reaches the target, otherwise merge the next source. -/
def accumulateSources (targetCount : Nat) :
    List (List IPResult) → List IPResult → List IPResult
  | [], acc => acc
  | src :: rest, acc =>
    if acc.length ≥ targetCount then acc
    else accumulateSources targetCount rest (mergeSourceResults acc src)

/-- Stable insertion by latency: Python's `list.sort` is stable, and
insertion sort with `≤` places each element before every strictly larger
one while keeping the original order among equal latencies. -/
def insertByLatency (r : IPResult) : List IPResult → List IPResult
  | [] => [r]
  | x :: xs => if r.latency ≤ x.latency then r :: x :: xs else x :: insertByLatency r xs

/-- `all_results.sort(key=lambda x: x.latency)` as a stable sort. -/
def sortByLatency : List IPResult → List IPResult
  | [] => []
  | x :: xs => insertByLatency x (sortByLatency xs)

/-- The final ranking step of `get_country_ips_from_all_sources`:
`all_results.sort(key=lambda x: x.latency)` then `[:self.target_count]`. -/
def rankResults (results : List IPResult) (targetCount : Nat) : List IPResult :=
  (sortByLatency results).take targetCount

/-- `CloudflareIPOptimizer._parse_ip_format`: split off a `#` comment,
then an optional `:port` (any extra `:` fields are ignored beyond the
second, and the port must parse as an int), and validate the stripped
host as IPv4. -/
def _parse_ip_format (ipString : String) (defaultPort : Int) : Option (String × Int) :=
  let mainPart :=
    if pyContainsChar ipString '#' then (pySplitOnce ipString '#').1 else ipString
  let hostPort : Option (String × Int) :=
    if pyContainsChar mainPart ':' then
      match pySplit mainPart ':' with
      | p0 :: p1 :: _ =>
        match pyInt p1 with
        | some n => some (p0, n)
        | none => none
      | _ => none
    else some (mainPart, defaultPort)
  match hostPort with
  | none => none
  | some (host, port) =>
    if host = "" || !_is_valid_ip (pyStrip host) then none
    else some (pyStrip host, port)

/-- Assembly of the `IPResult` returned by `test_ip` from a successful
attempt, with `_get_country_from_colo` abstracted as `countryOf`. -/
def buildIPResult (countryOf : String → String) (host : String) (port : Int)
    (r : SingleTestData) : IPResult :=
  { ip := host, port := port, latency := r.latency, colo := r.colo,
    country := countryOf r.colo, type := r.type }

/-- The `for attempt in range(1, 4)` retry loop of `test_ip`:
`attemptResult a` is the outcome of `_single_test` on attempt `a` (`none`
models any failed attempt — non-200 status, malformed body, timeout or a
caught exception).  Returns the first success (if any), the number of
attempts made, and the list of sleep delays performed (ms). -/
def testIpAttempts (attemptResult : Nat → Option SingleTestData) :
    List Nat → Nat → List Nat → Option SingleTestData × Nat × List Nat
  | [], made, sleeps => (none, made, sleeps)
  | a :: rest, made, sleeps =>
    match attemptResult a with
    | some r => (some r, made + 1, sleeps)
    | none =>
      testIpAttempts attemptResult rest (made + 1)
        (if a < 3 then sleeps ++ [200] else sleeps)

/-- `CloudflareIPOptimizer.test_ip`: parse the candidate (on failure no
attempt is made), then probe with the retry loop; a success is converted
to an `IPResult`.  All exceptions inside an attempt are caught by
`_single_test`, so the function only ever returns a value. -/
def test_ip (attemptResult : Nat → Option SingleTestData)
    (countryOf : String → String) (ipString : String) (defaultPort : Int) :
    Option IPResult × Nat × List Nat :=
  match _parse_ip_format ipString defaultPort with
  | none => (none, 0, [])
  | some (host, port) =>
    match testIpAttempts attemptResult [1, 2, 3] 0 [] with
    | (none, made, sleeps) => (none, made, sleeps)
    | (some r, made, sleeps) => (some (buildIPResult countryOf host port r), made, sleeps)

/-- Control point of one `test_with_semaphore(ip)` task inside
`test_ips_with_early_stop`.  In asyncio, code between two `await`s runs
atomically, so a task moves through four points: `start` (not yet at the
first `stop_event.is_set()` check), `waiting` (past the first check,
queued on `async with semaphore`), `probing` (acquired the semaphore,
passed the second check, probe `test_ip` in flight), and `done out`
(returned with `out`). -/
inductive TaskPhase where
  | start : TaskPhase
  | waiting : TaskPhase
  | probing : TaskPhase
  | done : Option IPResult → TaskPhase
deriving DecidableEq, Repr

/-- Shared state of one `test_ips_with_early_stop` call: per-task phases,
free semaphore slots, the stop event, the shared `results` list and the
target-country counter `len(country_results)`. -/
structure EarlyStopState where
  phases : List TaskPhase
  permits : Nat
  stopSet : Bool
  results : List IPResult
  countryCount : Nat
deriving DecidableEq, Repr

/-- One atomic step of task `i` in `test_ips_with_early_stop`; `probe i`
is the (predetermined) outcome of `test_ip` for candidate `i`.  A task at
`start` runs the first stop check; a task at `waiting` acquires a free
semaphore slot and runs the second stop check (returning `None` releases
the slot again via `async with`); a task at `probing` finishes its probe
and atomically appends a successful result, bumps the country counter and
raises the stop event once `target_count` matches are collected.  Steps
on blocked or finished tasks change nothing. -/
def esStep (probe : Nat → Option IPResult) (targetCountry : String)
    (targetCount : Nat) (s : EarlyStopState) (i : Nat) : EarlyStopState :=
  match s.phases[i]? with
  | none => s
  | some TaskPhase.start =>
    if s.stopSet then { s with phases := s.phases.set i (TaskPhase.done none) }
    else { s with phases := s.phases.set i TaskPhase.waiting }
  | some TaskPhase.waiting =>
    if s.permits = 0 then s
    else if s.stopSet then { s with phases := s.phases.set i (TaskPhase.done none) }
    else { s with phases := s.phases.set i TaskPhase.probing, permits := s.permits - 1 }
  | some TaskPhase.probing =>
    match probe i with
    | none =>
      { s with phases := s.phases.set i (TaskPhase.done none), permits := s.permits + 1 }
    | some r =>
      let newCount :=
        if r.country = targetCountry then s.countryCount + 1 else s.countryCount
      { s with phases := s.phases.set i (TaskPhase.done (some r)),
               permits := s.permits + 1,
               results := s.results ++ [r],
               countryCount := newCount,
               stopSet := s.stopSet ||
                 ((r.country == targetCountry) && decide (targetCount ≤ newCount)) }
  | some (TaskPhase.done _) => s

/-- A run of `test_ips_with_early_stop` under an arbitrary interleaving:
the scheduler picks which task steps next. -/
def esRun (probe : Nat → Option IPResult) (targetCountry : String)
    (targetCount : Nat) (s : EarlyStopState) (sched : List Nat) : EarlyStopState :=
  sched.foldl (esStep probe targetCountry targetCount) s

/-- Initial state of `test_ips_with_early_stop` for `n` candidates and
semaphore capacity `maxConcurrent`. -/
def esInit (n maxConcurrent : Nat) : EarlyStopState :=
  { phases := List.replicate n TaskPhase.start, permits := maxConcurrent,
    stopSet := false, results := [], countryCount := 0 }

/-- `d.get` on a cons cell of the association list. -/
theorem dictGet_cons (kv : String × String) (l : List (String × String)) (k : String) :
    dictGet (kv :: l) k = if kv.1 == k then some kv.2 else dictGet l k := by
  by_cases h : kv.1 == k <;> simp [dictGet, List.find?, h]

/-- `d.get` after `d[k0] = v0`: the new binding wins on `k0`, everything
else is unchanged. -/
theorem dictGet_dictInsert (d : List (String × String)) (k0 v0 k : String) :
    dictGet (dictInsert d k0 v0) k = if k0 == k then some v0 else dictGet d k := by
  induction d with
  | nil =>
    by_cases h : k0 == k <;> simp [dictInsert, dictGet, List.find?, h]
  | cons kv rest ih =>
    by_cases h1 : kv.1 = k0
    · subst h1
      by_cases h2 : kv.1 == k <;>
        simp [dictInsert, dictGet, List.find?, h2]
    · by_cases h2 : kv.1 == k
      · have h3 : (k0 == k) = false := by
          refine beq_eq_false_iff_ne.mpr ?_
          intro hc
          exact h1 (hc ▸ beq_iff_eq.mp h2)
        rw [dictInsert, if_neg h1, dictGet_cons, if_pos h2, dictGet_cons, if_pos h2, h3]
        simp
      · rw [dictInsert, if_neg h1, dictGet_cons, if_neg h2, ih, dictGet_cons]
        simp [h2]

/-- Lookup after folding dict assignments: the last binding of `k` in the
assignment list wins; otherwise the initial dict decides. -/
theorem dictGet_foldl_insert (bs : List (String × String)) :
    ∀ (d : List (String × String)) (k : String),
      dictGet (bs.foldl (fun d kv => dictInsert d kv.1 kv.2) d) k =
        match bs.reverse.find? (fun kv => kv.1 == k) with
        | some kv => some kv.2
        | none => dictGet d k := by
  induction bs with
  | nil => intro d k; simp
  | cons b rest ih =>
    intro d k
    simp only [List.foldl_cons, List.reverse_cons, List.find?_append]
    rw [ih]
    cases hf : rest.reverse.find? (fun kv => kv.1 == k) with
    | some kv => simp [Option.or]
    | none =>
      simp only [Option.or]
      rw [dictGet_dictInsert]
      by_cases hb : b.1 == k <;> simp [List.find?, hb]

/-- The line fold of `_parse_trace_response` only ever folds the binding
lines: non-binding lines leave the dict unchanged. -/
theorem foldl_traceLineStep (lines : List String) :
    ∀ d, lines.foldl traceLineStep d =
      (lines.filterMap traceLineBinding).foldl (fun d kv => dictInsert d kv.1 kv.2) d := by
  induction lines with
  | nil => intro d; rfl
  | cons l rest ih =>
    intro d
    by_cases hc : (pyStrip l != "" && pyContainsChar (pyStrip l) '=') = true
    · simp [traceLineStep, traceLineBinding, hc, ih]
    · simp [traceLineStep, traceLineBinding, hc, ih]

/-- Counterexample to claim C10 as stated: on the body with two `=`-lines
sharing the key `a`, the returned mapping does **not** contain the first
line's binding `a=1` — dict assignment lets the later line override it, so
the mapping holds only `a=2`. -/
theorem claim_C10_duplicate_key_counterexample :
    _parse_trace_response "a=1\na=2" = some [("a", "2")] ∧
    dictGet ((_parse_trace_response "a=1\na=2").getD []) "a" ≠ some "1" := by decide

/-- Claim C10 (amended): `_parse_trace_response` is total — its `try` body
uses only total operations, so the exception branch is unreachable and the
function never returns `None` for any input string.  For every key, the
returned mapping holds the remainder (after the first `=`) of the **last**
non-blank `=`-line with that key — later duplicate keys override earlier
ones, which is the one point on which the original claim's "for every
line" wording fails.  Lines without `=` are silently ignored, so an empty
or garbage body yields an empty mapping, and `_single_test` then treats
the probe as failed because the `ip` and `colo` keys are absent. -/
theorem claim_C10_trace_parser_total :
    (∀ s : String, _parse_trace_response s ≠ none) ∧
    (∀ s k : String, dictGet ((_parse_trace_response s).getD []) k = lastBindingLookup s k) ∧
    _parse_trace_response "" = some [] ∧
    _parse_trace_response "garbage line\n   \nx" = some [] ∧
    (∀ (ip : String) (port : Int) (lat : ℚ), _single_test ip port 200 lat "" = none) := by
  refine ⟨fun s => by simp [_parse_trace_response], fun s k => ?_, by decide, by decide,
    fun ip port lat => rfl⟩
  simp only [_parse_trace_response, Option.getD_some]
  rw [foldl_traceLineStep, dictGet_foldl_insert]
  unfold lastBindingLookup
  cases hf : ((pySplit s '\n').filterMap traceLineBinding).reverse.find? (fun kv => kv.1 == k) with
  | some kv => simp [hf]
  | none => simp [hf, dictGet, List.find?]

/-- Claim C9: the static colo table literal repeats the keys SJC, LAX,
HKG, NRT and ICN, and Python keeps only the last binding of each, so the
static lookup maps SJC→US, LAX→US, HKG→HK, NRT→JP and ICN→KR; consequently
no colo code at all resolves to country "CN" through the static table, so
with target country "CN" a static-table lookup can never produce a
target-country match. -/
theorem claim_C9_colo_table_last_binding_wins :
    staticColoLookup "SJC" = some "US" ∧
    staticColoLookup "LAX" = some "US" ∧
    staticColoLookup "HKG" = some "HK" ∧
    staticColoLookup "NRT" = some "JP" ∧
    staticColoLookup "ICN" = some "KR" ∧
    ∀ colo : String, staticColoLookup colo ≠ some "CN" := by
  refine ⟨by decide, by decide, by decide, by decide, by decide, ?_⟩
  intro colo h
  unfold staticColoLookup dictGet at h
  rcases Option.map_eq_some'.mp h with ⟨kv, hfind, hv⟩
  have hmem : kv ∈ coloCountryDict := List.mem_of_find?_eq_some hfind
  have hall : ∀ p ∈ coloCountryDict, p.2 ≠ "CN" := by decide
  exact hall kv hmem hv

/-- Claim C4: for every successful probe response, the classification is
`proxy` (relayed) exactly when the reported reachable address contains a
colon (an IPv6 literal) or equals the originally dialed address; in every
other successful case it is `official` (primary). -/
theorem claim_C4_responder_classification (ip : String) (port : Int) (status : Nat) (latency : ℚ)
    (body : String) (res : SingleTestData)
    (h : _single_test ip port status latency body = some res) :
    (res.type = "proxy" ↔ (pyContainsChar res.response_ip ':' = true ∨ res.response_ip = ip)) ∧
    (res.type = "proxy" ∨ res.type = "official") := by
  by_cases hs : status = 200
  · rw [_single_test, if_pos hs] at h
    simp only [_parse_trace_response] at h
    split at h
    next hcond =>
      injection h with h
      subst h
      generalize (dictGet ((pySplit body '\n').foldl traceLineStep []) "ip").getD "" = rip
      by_cases hc : (pyContainsChar rip ':' || rip == ip) = true
      · rw [if_pos hc]
        simp only [Bool.or_eq_true, beq_iff_eq] at hc
        exact ⟨⟨fun _ => hc, fun _ => rfl⟩, Or.inl rfl⟩
      · rw [if_neg hc]
        simp only [Bool.or_eq_true, beq_iff_eq] at hc
        refine ⟨⟨fun he => ?_, fun hor => absurd hor hc⟩, Or.inr rfl⟩
        have hbad : ("official" : String) = "proxy" := he
        simp at hbad
    next => exact absurd h (by simp)
  · rw [_single_test, if_neg hs] at h
    exact absurd h (by simp)

/-- The concrete successful probe response used to witness the
classification claim. -/
def c4witnessData : SingleTestData :=
  { ip := "1.2.3.4", port := 443, latency := 10, colo := "SJC", type := "proxy",
    response_ip := "1.2.3.4" }

/-- Witness for claim C4 at a concrete successful probe: dialing
`1.2.3.4:443` and receiving a 200 trace body whose reported address equals
the dialed address yields classification `proxy`. -/
theorem claim_C4_responder_classification_witness :
    (c4witnessData.type = "proxy" ↔
      (pyContainsChar c4witnessData.response_ip ':' = true ∨
        c4witnessData.response_ip = "1.2.3.4")) ∧
    (c4witnessData.type = "proxy" ∨ c4witnessData.type = "official") :=
  claim_C4_responder_classification "1.2.3.4" 443 200 10 "ip=1.2.3.4\ncolo=SJC" c4witnessData (by decide)

/-- Claim C7: the proxy-list parser returns the candidate (with its `#`
comment preserved) exactly when the line's explicit port equals the target
port — for any target port, `"1.2.3.4:443#tag"` is kept iff the target is
`"443"`; a line without an explicit port defaults to 443 and is kept iff
the target port is `"443"`; and lines with an out-of-range port (70000), a
non-numeric port, or an invalid IPv4 octet (999) are dropped without
error. -/
theorem claim_C7_proxy_line_port_filter :
    (∀ tp : String, _parse_proxy_ip_line "1.2.3.4:443#tag" tp =
        if "443" = tp then some "1.2.3.4:443#tag" else none) ∧
    (∀ tp : String, _parse_proxy_ip_line "1.2.3.4" tp =
        if "443" = tp then some "1.2.3.4:443" else none) ∧
    _parse_proxy_ip_line "1.2.3.4:70000" "70000" = none ∧
    _parse_proxy_ip_line "1.2.3.4:abc" "abc" = none ∧
    _parse_proxy_ip_line "999.1.1.1:443" "443" = none := by
  refine ⟨fun tp => ?_, fun tp => ?_, by decide, by decide, by decide⟩
  · by_cases h : ("443" : String) = tp
    · subst h; decide
    · rw [if_neg h]
      show (if ("443" : String) ≠ tp then none
            else if ("tag" : String) ≠ "" then some "1.2.3.4:443#tag"
            else some "1.2.3.4:443") = none
      rw [if_pos h]
  · by_cases h : ("443" : String) = tp
    · subst h; decide
    · rw [if_neg h]
      show (if ("443" : String) ≠ tp then none
            else if ("" : String) ≠ "" then some "1.2.3.4:443#"
            else some "1.2.3.4:443") = none
      rw [if_pos h]

/-- Adding to the set grows it by at most one element. -/
theorem setAdd_length (s : List Nat) (x : Nat) : (setAdd s x).length ≤ s.length + 1 := by
  unfold setAdd; split
  · exact Nat.le_succ _
  · simp

/-- Members of the set after an add. -/
theorem setAdd_mem {s : List Nat} {x y : Nat} (h : y ∈ setAdd s x) : y ∈ s ∨ y = x := by
  unfold setAdd at h; split at h
  · exact Or.inl h
  · simpa using h

/-- The sampling loop never exceeds `actual` elements. -/
theorem genIpsAux_length (rng : Nat → Nat) (base maxHosts actual : Nat) :
    ∀ (rem t : Nat) (ips : List Nat), ips.length ≤ actual →
      ((genIpsAux rng base maxHosts actual rem t ips).1).length ≤ actual := by
  intro rem
  induction rem with
  | zero => intro t ips h; exact h
  | succ n ih =>
    intro t ips h
    rw [genIpsAux]
    split
    next hlt =>
      exact ih _ _ (by have := setAdd_length ips (base + (1 + rng t % maxHosts)); omega)
    next => exact h

/-- Every address the sampling loop adds is the base plus an offset drawn
by the rng. -/
theorem genIpsAux_mem (rng : Nat → Nat) (base maxHosts actual : Nat) :
    ∀ (rem t : Nat) (ips : List Nat) (x : Nat),
      x ∈ (genIpsAux rng base maxHosts actual rem t ips).1 →
      x ∈ ips ∨ ∃ k, x = base + (1 + rng k % maxHosts) := by
  intro rem
  induction rem with
  | zero => intro t ips x h; exact Or.inl h
  | succ n ih =>
    intro t ips x h
    rw [genIpsAux] at h
    split at h
    next =>
      rcases ih _ _ _ h with h1 | h1
      · rcases setAdd_mem h1 with h2 | h2
        · exact Or.inl h2
        · exact Or.inr ⟨t, h2⟩
      · exact Or.inr h1
    next => exact Or.inl h

/-- Claim C6: for every CIDR block with usable-host count H (addresses
minus network and broadcast), the sampler returns at most `min count H`
addresses, every returned address lies strictly between the network and
broadcast addresses, and a block with H ≤ 0 contributes nothing and causes
no error. -/
theorem claim_C6_cidr_sampler_bounds (rng : Nat → Nat) (t : Nat) (net : IPv4Net) (count : Nat) :
    ((_generate_ips_from_cidr rng t net count).1).length ≤
        min count ((net.numAddresses : Int) - 2).toNat ∧
    (∀ ip ∈ (_generate_ips_from_cidr rng t net count).1,
        net.addr < ip ∧ ip < net.broadcastAddr) ∧
    ((net.numAddresses : Int) - 2 ≤ 0 → (_generate_ips_from_cidr rng t net count).1 = []) := by
  unfold _generate_ips_from_cidr
  by_cases h0 : (net.numAddresses : Int) - 2 ≤ 0
  · rw [if_pos h0]
    exact ⟨by simp, by simp, fun _ => rfl⟩
  · rw [if_neg h0]
    have hpos : 0 < ((net.numAddresses : Int) - 2).toNat := by omega
    have hnum : 3 ≤ net.numAddresses := by omega
    have hm2 : ((((net.numAddresses : Int) - 2).toNat : Int)) = (net.numAddresses : Int) - 2 :=
      Int.toNat_of_nonneg (by omega)
    refine ⟨?_, ?_, fun hcontra => absurd hcontra h0⟩
    · exact genIpsAux_length rng net.addr _ _ _ _ _ (by simp)
    · intro ip hip
      rcases genIpsAux_mem rng net.addr _ _ _ _ _ ip hip with h1 | h1
      · simp at h1
      · rcases h1 with ⟨k, rfl⟩
        have hmod : rng k % ((net.numAddresses : Int) - 2).toNat <
            ((net.numAddresses : Int) - 2).toNat := Nat.mod_lt _ hpos
        unfold IPv4Net.broadcastAddr
        omega

/-- Claim C5: the prober makes at most 3 attempts; the first successful
attempt is returned without further attempts (1, 2 or 3 attempts with 0, 1
or 2 preceding 200 ms sleeps); if all 3 attempts fail, nothing is returned
after exactly 3 attempts and 2 sleeps; a candidate that fails to parse is
not probed at all.  Exceptions are modelled away: every attempt outcome is
a value (`_single_test` catches all errors), so `test_ip` is a total
function and never raises to its caller. -/
theorem claim_C5_retry_policy :
    (∀ (probe : Nat → Option SingleTestData) (countryOf : String → String)
        (s : String) (dp : Int), (test_ip probe countryOf s dp).2.1 ≤ 3) ∧
    (∀ (probe : Nat → Option SingleTestData) (countryOf : String → String)
        (s : String) (dp : Int) (host : String) (port : Int) (r : SingleTestData),
        _parse_ip_format s dp = some (host, port) → probe 1 = some r →
        test_ip probe countryOf s dp = (some (buildIPResult countryOf host port r), 1, [])) ∧
    (∀ (probe : Nat → Option SingleTestData) (countryOf : String → String)
        (s : String) (dp : Int) (host : String) (port : Int) (r : SingleTestData),
        _parse_ip_format s dp = some (host, port) → probe 1 = none → probe 2 = some r →
        test_ip probe countryOf s dp = (some (buildIPResult countryOf host port r), 2, [200])) ∧
    (∀ (probe : Nat → Option SingleTestData) (countryOf : String → String)
        (s : String) (dp : Int) (host : String) (port : Int) (r : SingleTestData),
        _parse_ip_format s dp = some (host, port) → probe 1 = none → probe 2 = none →
        probe 3 = some r →
        test_ip probe countryOf s dp = (some (buildIPResult countryOf host port r), 3, [200, 200])) ∧
    (∀ (probe : Nat → Option SingleTestData) (countryOf : String → String)
        (s : String) (dp : Int) (host : String) (port : Int),
        _parse_ip_format s dp = some (host, port) → probe 1 = none → probe 2 = none →
        probe 3 = none →
        test_ip probe countryOf s dp = (none, 3, [200, 200])) ∧
    (∀ (probe : Nat → Option SingleTestData) (countryOf : String → String)
        (s : String) (dp : Int), _parse_ip_format s dp = none →
        test_ip probe countryOf s dp = (none, 0, [])) := by
  refine ⟨?_, ?_, ?_, ?_, ?_, ?_⟩
  · intro probe countryOf s dp
    unfold test_ip
    cases hp : _parse_ip_format s dp with
    | none => simp
    | some hpair =>
      obtain ⟨host, port⟩ := hpair
      cases h1 : probe 1 with
      | some r => simp [testIpAttempts, h1]
      | none =>
        cases h2 : probe 2 with
        | some r => simp [testIpAttempts, h1, h2]
        | none =>
          cases h3 : probe 3 with
          | some r => simp [testIpAttempts, h1, h2, h3]
          | none => simp [testIpAttempts, h1, h2, h3]
  · intro probe countryOf s dp host port r hp h1
    simp [test_ip, testIpAttempts, hp, h1]
  · intro probe countryOf s dp host port r hp h1 h2
    simp [test_ip, testIpAttempts, hp, h1, h2]
  · intro probe countryOf s dp host port r hp h1 h2 h3
    simp [test_ip, testIpAttempts, hp, h1, h2, h3]
  · intro probe countryOf s dp host port hp h1 h2 h3
    simp [test_ip, testIpAttempts, hp, h1, h2, h3]
  · intro probe countryOf s dp hp
    simp [test_ip, hp]

/-- Inserting permutes: the sorted insert has the same elements. -/
theorem insertByLatency_perm (r : IPResult) (l : List IPResult) :
    (insertByLatency r l).Perm (r :: l) := by
  induction l with
  | nil => exact List.Perm.refl _
  | cons x xs ih =>
    rw [insertByLatency]
    split
    · exact List.Perm.refl _
    · exact (List.Perm.cons x ih).trans (List.Perm.swap r x xs)

/-- Inserting into a latency-sorted list keeps it sorted. -/
theorem insertByLatency_sorted (r : IPResult) (l : List IPResult)
    (h : l.Pairwise (fun a b => a.latency ≤ b.latency)) :
    (insertByLatency r l).Pairwise (fun a b => a.latency ≤ b.latency) := by
  induction l with
  | nil => simp [insertByLatency]
  | cons x xs ih =>
    rw [insertByLatency]
    rcases List.pairwise_cons.mp h with ⟨hx, hxs⟩
    split
    next hle =>
      refine List.pairwise_cons.mpr ⟨?_, h⟩
      intro b hb
      rcases List.mem_cons.mp hb with rfl | hb
      · exact hle
      · exact le_trans hle (hx b hb)
    next hgt =>
      refine List.pairwise_cons.mpr ⟨?_, ih hxs⟩
      intro b hb
      rcases List.mem_cons.mp ((insertByLatency_perm r xs).mem_iff.mp hb) with rfl | hb
      · exact le_of_not_le hgt
      · exact hx b hb

/-- Stability of a single insert, expressed through the latency classes:
inserting `r` leaves the relative order of any latency class untouched
(and prepends `r` to its own class, all of whose members it precedes). -/
theorem insertByLatency_filter (r : IPResult) (l : List IPResult) (v : ℚ) :
    (insertByLatency r l).filter (fun a => a.latency == v) =
      if r.latency == v then r :: l.filter (fun a => a.latency == v)
      else l.filter (fun a => a.latency == v) := by
  induction l with
  | nil =>
    by_cases hr : r.latency == v <;> simp [insertByLatency, List.filter, hr]
  | cons x xs ih =>
    rw [insertByLatency]
    split
    next hle =>
      by_cases hr : r.latency == v <;> simp [List.filter_cons, hr]
    next hgt =>
      by_cases hr : r.latency == v <;> by_cases hx : x.latency == v
      · exfalso
        have h1 : r.latency = v := beq_iff_eq.mp hr
        have h2 : x.latency = v := beq_iff_eq.mp hx
        exact hgt (le_of_eq (h1.trans h2.symm))
      · simp [List.filter_cons, hr, hx, ih]
      · simp [List.filter_cons, hr, hx, ih]
      · simp [List.filter_cons, hr, hx, ih]

/-- The stable sort is a permutation of its input. -/
theorem sortByLatency_perm (l : List IPResult) : (sortByLatency l).Perm l := by
  induction l with
  | nil => exact List.Perm.refl _
  | cons x xs ih =>
    exact (insertByLatency_perm x (sortByLatency xs)).trans (List.Perm.cons x ih)

/-- The stable sort is sorted by latency. -/
theorem sortByLatency_sorted (l : List IPResult) :
    (sortByLatency l).Pairwise (fun a b => a.latency ≤ b.latency) := by
  induction l with
  | nil => simp [sortByLatency]
  | cons x xs ih => exact insertByLatency_sorted x (sortByLatency xs) ih

/-- Stability: each latency class appears in the sorted list exactly in
its original order. -/
theorem sortByLatency_filter (l : List IPResult) (v : ℚ) :
    (sortByLatency l).filter (fun a => a.latency == v) =
      l.filter (fun a => a.latency == v) := by
  induction l with
  | nil => rfl
  | cons x xs ih =>
    rw [sortByLatency, insertByLatency_filter]
    by_cases hx : x.latency == v <;> simp [List.filter_cons, hx, ih]

/-- Claim C8: the final ranking sorts the accumulated results by latency
ascending (the output is pairwise ordered), truncates to `targetCount`
(length is the minimum of the target and the input length), is a
permutation of the input, and is stable — every latency class appears in
exactly its original insertion order; in particular latencies [50, 10, 30]
with target 2 return the 10 and 30 results in that order, and a tie
[20, 10, 20] keeps the two 20-results in input order. -/
theorem claim_C8_ranker_stable_sort_truncate :
    (∀ (results : List IPResult) (n : Nat),
        (rankResults results n).Pairwise (fun a b => a.latency ≤ b.latency)) ∧
    (∀ (results : List IPResult) (n : Nat),
        (rankResults results n).length = min n results.length) ∧
    (∀ results : List IPResult, (sortByLatency results).Perm results) ∧
    (∀ (results : List IPResult) (v : ℚ),
        (sortByLatency results).filter (fun r => r.latency == v) =
          results.filter (fun r => r.latency == v)) ∧
    rankResults
        [{ ip := "a", port := 443, latency := 50, colo := "x", country := "US", type := "official" },
         { ip := "b", port := 443, latency := 10, colo := "x", country := "US", type := "official" },
         { ip := "c", port := 443, latency := 30, colo := "x", country := "US", type := "official" }] 2 =
      [{ ip := "b", port := 443, latency := 10, colo := "x", country := "US", type := "official" },
       { ip := "c", port := 443, latency := 30, colo := "x", country := "US", type := "official" }] ∧
    rankResults
        [{ ip := "a", port := 443, latency := 20, colo := "x", country := "US", type := "official" },
         { ip := "b", port := 443, latency := 10, colo := "x", country := "US", type := "official" },
         { ip := "c", port := 443, latency := 20, colo := "x", country := "US", type := "official" }] 3 =
      [{ ip := "b", port := 443, latency := 10, colo := "x", country := "US", type := "official" },
       { ip := "a", port := 443, latency := 20, colo := "x", country := "US", type := "official" },
       { ip := "c", port := 443, latency := 20, colo := "x", country := "US", type := "official" }] := by
  refine ⟨?_, ?_, sortByLatency_perm, sortByLatency_filter, by decide, by decide⟩
  · intro results n
    exact (sortByLatency_sorted results).sublist (List.take_sublist n _)
  · intro results n
    rw [rankResults, List.length_take, (sortByLatency_perm results).length_eq]

/-- Counterexample to claim C3 as stated: merging a single source that
itself contains two results for `1.2.3.4:443` puts **two** entries with
that key into the accumulated list — `existing_ips` is computed before the
merge and not updated within it, so duplicates inside one source survive.
The proxy-list parser can indeed yield two distinct candidates with the
same `ip:port` (differing comments), so one source can produce such a
pair. -/
theorem claim_C3_dedup_counterexample :
    (accumulateSources 5
        [[{ ip := "1.2.3.4", port := 443, latency := 10, colo := "SJC", country := "CN", type := "official" },
          { ip := "1.2.3.4", port := 443, latency := 20, colo := "LAX", country := "CN", type := "official" }]]
        []).map IPResult.key = ["1.2.3.4:443", "1.2.3.4:443"] ∧
    _parse_proxy_ip_line "1.2.3.4:443#a" "443" = some "1.2.3.4:443#a" ∧
    _parse_proxy_ip_line "1.2.3.4:443#b" "443" = some "1.2.3.4:443#b" := by decide

/-- Anything in the merged list is either an old accumulated result or a
new result whose key was not yet accumulated. -/
theorem merge_mem (acc src : List IPResult) (r : IPResult)
    (h : r ∈ mergeSourceResults acc src) :
    r ∈ acc ∨ (r ∈ src ∧ r.key ∉ acc.map IPResult.key) := by
  unfold mergeSourceResults at h
  rcases List.mem_append.mp h with h1 | h1
  · exact Or.inl h1
  · rcases List.mem_filter.mp h1 with ⟨hmem, hcond⟩
    refine Or.inr ⟨hmem, ?_⟩
    intro hk
    rw [Bool.not_eq_eq_eq_not, Bool.not_true, List.contains, ← Bool.not_eq_true,
      List.elem_iff] at hcond
    exact hcond hk

/-- Merging a key-duplicate-free source into a key-duplicate-free
accumulated list keeps the keys duplicate-free. -/
theorem merge_keys_nodup (acc src : List IPResult)
    (ha : (acc.map IPResult.key).Nodup) (hs : (src.map IPResult.key).Nodup) :
    ((mergeSourceResults acc src).map IPResult.key).Nodup := by
  unfold mergeSourceResults
  rw [List.map_append, List.nodup_append]
  refine ⟨ha, hs.sublist (List.Sublist.map IPResult.key (List.filter_sublist src)), ?_⟩
  intro k hk1 hk2
  rcases List.mem_map.mp hk2 with ⟨r, hrmem, rfl⟩
  rcases List.mem_filter.mp hrmem with ⟨_, hcond⟩
  rw [Bool.not_eq_eq_eq_not, Bool.not_true, List.contains, ← Bool.not_eq_true,
    List.elem_iff] at hcond
  exact hcond hk1

/-- The accumulation loop preserves key-duplicate-freedom. -/
theorem accumulate_keys_nodup (target : Nat) :
    ∀ (sources : List (List IPResult)) (acc : List IPResult),
      (acc.map IPResult.key).Nodup →
      (∀ src ∈ sources, (src.map IPResult.key).Nodup) →
      ((accumulateSources target sources acc).map IPResult.key).Nodup := by
  intro sources
  induction sources with
  | nil => intro acc ha _; exact ha
  | cons src rest ih =>
    intro acc ha hall
    rw [accumulateSources]
    split
    · exact ha
    · exact ih _ (merge_keys_nodup acc src ha (hall src (by simp)))
        (fun s hsm => hall s (by simp [hsm]))

/-- Claim C3 (amended): whenever a source's results are merged, any result
whose `ip:port` already occurs in the accumulated list is discarded, so no
entry ever duplicates a key accumulated from an earlier source; and
provided each individual source's result list is key-duplicate-free, the
accumulated list never contains two entries with the same `ip:port`.
(Duplicates *within* one source's list are not removed — the original
unconditional invariant fails there.) -/
theorem claim_C3_dedup_across_sources :
    (∀ (acc src : List IPResult) (r : IPResult), r ∈ mergeSourceResults acc src →
        r ∈ acc ∨ (r ∈ src ∧ r.key ∉ acc.map IPResult.key)) ∧
    (∀ (targetCount : Nat) (sources : List (List IPResult)),
        (∀ src ∈ sources, (src.map IPResult.key).Nodup) →
        ((accumulateSources targetCount sources []).map IPResult.key).Nodup) :=
  ⟨merge_mem, fun target sources hall =>
    accumulate_keys_nodup target sources [] (by simp) hall⟩

/-- `set.add` keeps the set duplicate-free. -/
theorem setAdd_nodup {s : List Nat} (h : s.Nodup) (x : Nat) : (setAdd s x).Nodup := by
  unfold setAdd; split
  · exact h
  next hmem =>
    rw [List.nodup_append]
    exact ⟨h, List.nodup_singleton x,
      fun a ha hax => hmem ((List.mem_singleton.mp hax) ▸ ha)⟩

/-- `set.update` keeps the set duplicate-free. -/
theorem setUpdate_nodup (elems : List Nat) :
    ∀ {s : List Nat}, s.Nodup → (setUpdate s elems).Nodup := by
  induction elems with
  | nil => intro s h; exact h
  | cons e rest ih =>
    intro s h
    simp only [setUpdate, List.foldl_cons] at *
    exact ih (setAdd_nodup h e)

/-- One round of the rounds loop keeps the set duplicate-free. -/
theorem cidrsRoundAux_nodup (rng : Nat → Nat) (target roundNum : Nat) :
    ∀ (cs : List IPv4Net) (t : Nat) {ips : List Nat}, ips.Nodup →
      ((cidrsRoundAux rng target roundNum cs t ips).1).Nodup := by
  intro cs
  induction cs with
  | nil => intro t ips h; exact h
  | cons c rest ih =>
    intro t ips h
    rw [cidrsRoundAux]
    split
    · exact h
    · exact ih _ (setUpdate_nodup _ h)

/-- The rounds loop keeps the set duplicate-free. -/
theorem cidrsRoundsAux_nodup (rng : Nat → Nat) (cidrs : List IPv4Net) (target : Nat) :
    ∀ (fuel roundNum t : Nat) {ips : List Nat}, ips.Nodup →
      (cidrsRoundsAux rng cidrs target fuel roundNum t ips).Nodup := by
  intro fuel
  induction fuel with
  | zero => intro _ _ ips h; exact h
  | succ n ih =>
    intro roundNum t ips h
    rw [cidrsRoundsAux]
    split
    · exact ih _ _ (cidrsRoundAux_nodup rng target roundNum cidrs t h)
    · exact h

/-- Counterexample to claim C2 as stated: the code passes the round number
as the per-block draw count (`_generate_ips_from_cidr(cidr, round_num)`),
so from round 2 on it draws more than one address per block per round.
On two /24 blocks with target 4 and the identity rng stream, the code's
output differs from the spec-worded one-draw-per-block-per-round
algorithm. -/
theorem claim_C2_one_per_round_counterexample :
    _generate_ips_from_cidrs (fun t => t) [⟨167772160, 24⟩, ⟨167837696, 24⟩] 4 ≠
      specSamplerOnePerRound (fun t => t) [⟨167772160, 24⟩, ⟨167837696, 24⟩] 4 := by decide

/-- Claim C2 (amended): the sampler proceeds in rounds over the blocks,
accumulating into a unique set (the result is duplicate-free), truncated
to the target; rounds stop as soon as the set reaches the target count
(the loop returns the set unchanged once `target ≤ |ips|`) and after at
most the round cap (zero remaining rounds return the set); but in round r
the code draws up to r addresses from each block — the count passed to the
per-block sampler is the round number, not 1 — as the concrete run shows:
with two /24 blocks and target 4, round 2 contributes the two addresses
`.3` and `.4` from the first block. -/
theorem claim_C2_sampler_rounds :
    (∀ (rng : Nat → Nat) (cidrs : List IPv4Net) (maxIps : Nat),
        (_generate_ips_from_cidrs rng cidrs maxIps).Nodup) ∧
    (∀ (rng : Nat → Nat) (cidrs : List IPv4Net) (maxIps : Nat),
        (_generate_ips_from_cidrs rng cidrs maxIps).length ≤ maxIps) ∧
    (∀ (rng : Nat → Nat) (cidrs : List IPv4Net) (target fuel roundNum t : Nat)
        (ips : List Nat), target ≤ ips.length →
        cidrsRoundsAux rng cidrs target fuel roundNum t ips = ips) ∧
    (∀ (rng : Nat → Nat) (cidrs : List IPv4Net) (target roundNum t : Nat)
        (ips : List Nat), cidrsRoundsAux rng cidrs target 0 roundNum t ips = ips) ∧
    _generate_ips_from_cidrs (fun t => t) [⟨167772160, 24⟩, ⟨167837696, 24⟩] 4 =
      [167772161, 167837698, 167772163, 167772164] := by
  refine ⟨?_, ?_, ?_, fun _ _ _ _ _ _ => rfl, by decide⟩
  · intro rng cidrs maxIps
    exact List.Nodup.sublist (List.take_sublist _ _)
      (cidrsRoundsAux_nodup rng cidrs maxIps 100 1 0 List.nodup_nil)
  · intro rng cidrs maxIps
    rw [_generate_ips_from_cidrs, List.length_take]
    omega
  · intro rng cidrs target fuel roundNum t ips h
    cases fuel with
    | zero => rfl
    | succ n => rw [cidrsRoundsAux, if_neg (by omega)]

/-- `esStep` on an out-of-range task index is a no-op. -/
theorem esStep_eq_none (probe : Nat → Option IPResult) (tc : String) (n : Nat)
    (s : EarlyStopState) (i : Nat) (h : s.phases[i]? = none) :
    esStep probe tc n s i = s := by
  unfold esStep; rw [h]

/-- `esStep` at the first stop check. -/
theorem esStep_eq_start (probe : Nat → Option IPResult) (tc : String) (n : Nat)
    (s : EarlyStopState) (i : Nat) (h : s.phases[i]? = some TaskPhase.start) :
    esStep probe tc n s i =
      if s.stopSet then { s with phases := s.phases.set i (TaskPhase.done none) }
      else { s with phases := s.phases.set i TaskPhase.waiting } := by
  unfold esStep; rw [h]

/-- `esStep` at the semaphore: acquire a slot (if any) and run the second
stop check. -/
theorem esStep_eq_waiting (probe : Nat → Option IPResult) (tc : String) (n : Nat)
    (s : EarlyStopState) (i : Nat) (h : s.phases[i]? = some TaskPhase.waiting) :
    esStep probe tc n s i =
      if s.permits = 0 then s
      else if s.stopSet then { s with phases := s.phases.set i (TaskPhase.done none) }
      else { s with phases := s.phases.set i TaskPhase.probing,
                    permits := s.permits - 1 } := by
  unfold esStep; rw [h]

/-- `esStep` at probe completion, failed probe. -/
theorem esStep_eq_probing_none (probe : Nat → Option IPResult) (tc : String) (n : Nat)
    (s : EarlyStopState) (i : Nat) (h : s.phases[i]? = some TaskPhase.probing)
    (hp : probe i = none) :
    esStep probe tc n s i =
      { s with phases := s.phases.set i (TaskPhase.done none),
               permits := s.permits + 1 } := by
  unfold esStep; rw [h, hp]

/-- `esStep` at probe completion, successful probe: append the result,
bump the country counter, raise the stop event at the threshold. -/
theorem esStep_eq_probing_some (probe : Nat → Option IPResult) (tc : String) (n : Nat)
    (s : EarlyStopState) (i : Nat) (r : IPResult)
    (h : s.phases[i]? = some TaskPhase.probing) (hp : probe i = some r) :
    esStep probe tc n s i =
      { s with phases := s.phases.set i (TaskPhase.done (some r)),
               permits := s.permits + 1,
               results := s.results ++ [r],
               countryCount :=
                 if r.country = tc then s.countryCount + 1 else s.countryCount,
               stopSet := s.stopSet || ((r.country == tc) && decide
                 (n ≤ if r.country = tc then s.countryCount + 1 else s.countryCount)) } := by
  unfold esStep; rw [h, hp]

/-- `esStep` on a finished task is a no-op. -/
theorem esStep_eq_done (probe : Nat → Option IPResult) (tc : String) (n : Nat)
    (s : EarlyStopState) (i : Nat) (o : Option IPResult)
    (h : s.phases[i]? = some (TaskPhase.done o)) :
    esStep probe tc n s i = s := by
  unfold esStep; rw [h]

/-- The stop event, once raised, is never cleared by any step. -/
theorem esStep_stop_mono (probe : Nat → Option IPResult) (tc : String) (n : Nat)
    (s : EarlyStopState) (i : Nat) (h : s.stopSet = true) :
    (esStep probe tc n s i).stopSet = true := by
  cases hget : s.phases[i]? with
  | none => rw [esStep_eq_none probe tc n s i hget]; exact h
  | some ph =>
    cases ph with
    | start => rw [esStep_eq_start probe tc n s i hget, if_pos h]; exact h
    | waiting =>
      rw [esStep_eq_waiting probe tc n s i hget]
      by_cases hep : s.permits = 0
      · rw [if_pos hep]; exact h
      · rw [if_neg hep, if_pos h]; exact h
    | probing =>
      cases hp : probe i with
      | none => rw [esStep_eq_probing_none probe tc n s i hget hp]; exact h
      | some r => rw [esStep_eq_probing_some probe tc n s i r hget hp]; simp [h]
    | done o => rw [esStep_eq_done probe tc n s i o hget]; exact h

/-- The stop event stays raised along any schedule. -/
theorem esRun_stop_mono (probe : Nat → Option IPResult) (tc : String) (n : Nat) :
    ∀ (sched : List Nat) (s : EarlyStopState), s.stopSet = true →
      (esRun probe tc n s sched).stopSet = true := by
  intro sched
  induction sched with
  | nil => intro s h; exact h
  | cons j rest ih => intro s h; exact ih _ (esStep_stop_mono probe tc n s j h)

/-- A step of task `j` does not move any other task's phase. -/
theorem esStep_other (probe : Nat → Option IPResult) (tc : String) (n : Nat)
    (s : EarlyStopState) (i j : Nat) (hij : i ≠ j) :
    (esStep probe tc n s j).phases[i]? = s.phases[i]? := by
  cases hget : s.phases[j]? with
  | none => rw [esStep_eq_none probe tc n s j hget]
  | some ph =>
    cases ph with
    | start =>
      rw [esStep_eq_start probe tc n s j hget]
      split <;> simp [List.getElem?_set_ne (Ne.symm hij)]
    | waiting =>
      rw [esStep_eq_waiting probe tc n s j hget]
      split
      · rfl
      · split <;> simp [List.getElem?_set_ne (Ne.symm hij)]
    | probing =>
      cases hp : probe j with
      | none =>
        rw [esStep_eq_probing_none probe tc n s j hget hp]
        simp [List.getElem?_set_ne (Ne.symm hij)]
      | some r =>
        rw [esStep_eq_probing_some probe tc n s j r hget hp]
        simp [List.getElem?_set_ne (Ne.symm hij)]
    | done o => rw [esStep_eq_done probe tc n s j o hget]

/-- After the stop event, one step can move a not-yet-admitted task only
to `done None`: its probe is never started. -/
theorem esStep_blocked (probe : Nat → Option IPResult) (tc : String) (n : Nat)
    (s : EarlyStopState) (i j : Nat) (hstop : s.stopSet = true)
    (hi : s.phases[i]? = some TaskPhase.start ∨ s.phases[i]? = some TaskPhase.waiting ∨
          s.phases[i]? = some (TaskPhase.done none)) :
    (esStep probe tc n s j).phases[i]? = some TaskPhase.start ∨
    (esStep probe tc n s j).phases[i]? = some TaskPhase.waiting ∨
    (esStep probe tc n s j).phases[i]? = some (TaskPhase.done none) := by
  by_cases hij : i = j
  · subst hij
    have hlen : i < s.phases.length := by
      rcases hi with hi | hi | hi <;> exact (List.getElem?_eq_some.mp hi).1
    rcases hi with hi | hi | hi
    · rw [esStep_eq_start probe tc n s i hi, if_pos hstop]
      exact Or.inr (Or.inr (by simp [List.getElem?_set_self hlen]))
    · rw [esStep_eq_waiting probe tc n s i hi]
      by_cases hep : s.permits = 0
      · rw [if_pos hep]; exact Or.inr (Or.inl hi)
      · rw [if_neg hep, if_pos hstop]
        exact Or.inr (Or.inr (by simp [List.getElem?_set_self hlen]))
    · rw [esStep_eq_done probe tc n s i none hi]
      exact Or.inr (Or.inr hi)
  · rw [esStep_other probe tc n s i j hij]
    exact hi

/-- After the stop event, a not-yet-admitted task never probes along any
schedule, and can only finish with no result. -/
theorem esRun_blocked (probe : Nat → Option IPResult) (tc : String) (n : Nat) :
    ∀ (sched : List Nat) (s : EarlyStopState) (i : Nat), s.stopSet = true →
      (s.phases[i]? = some TaskPhase.start ∨ s.phases[i]? = some TaskPhase.waiting ∨
       s.phases[i]? = some (TaskPhase.done none)) →
      ((esRun probe tc n s sched).phases[i]? = some TaskPhase.start ∨
       (esRun probe tc n s sched).phases[i]? = some TaskPhase.waiting ∨
       (esRun probe tc n s sched).phases[i]? = some (TaskPhase.done none)) := by
  intro sched
  induction sched with
  | nil => intro s i _ hi; exact hi
  | cons j rest ih =>
    intro s i hstop hi
    exact ih _ i (esStep_stop_mono probe tc n s j hstop)
      (esStep_blocked probe tc n s i j hstop hi)

/-- A step never removes results: the shared list only grows. -/
theorem esStep_results (probe : Nat → Option IPResult) (tc : String) (n : Nat)
    (s : EarlyStopState) (i : Nat) :
    ∃ tail, (esStep probe tc n s i).results = s.results ++ tail := by
  cases hget : s.phases[i]? with
  | none => exact ⟨[], by rw [esStep_eq_none probe tc n s i hget]; simp⟩
  | some ph =>
    cases ph with
    | start =>
      refine ⟨[], ?_⟩
      rw [esStep_eq_start probe tc n s i hget]
      split <;> simp
    | waiting =>
      refine ⟨[], ?_⟩
      rw [esStep_eq_waiting probe tc n s i hget]
      split
      · simp
      · split <;> simp
    | probing =>
      cases hp : probe i with
      | none => exact ⟨[], by rw [esStep_eq_probing_none probe tc n s i hget hp]; simp⟩
      | some r => exact ⟨[r], by rw [esStep_eq_probing_some probe tc n s i r hget hp]⟩
    | done o => exact ⟨[], by rw [esStep_eq_done probe tc n s i o hget]; simp⟩

/-- Results already collected stay in the returned list along any schedule. -/
theorem esRun_results (probe : Nat → Option IPResult) (tc : String) (n : Nat) :
    ∀ (sched : List Nat) (s : EarlyStopState),
      ∃ tail, (esRun probe tc n s sched).results = s.results ++ tail := by
  intro sched
  induction sched with
  | nil => exact fun s => ⟨[], by simp [esRun]⟩
  | cons j rest ih =>
    intro s
    obtain ⟨t1, h1⟩ := esStep_results probe tc n s j
    obtain ⟨t2, h2⟩ := ih (esStep probe tc n s j)
    exact ⟨t1 ++ t2, by
      show (esRun probe tc n (esStep probe tc n s j) rest).results = _
      rw [h2, h1, List.append_assoc]⟩

/-- An admitted (in-flight) probe runs to completion when its task is next
scheduled — the stop event does not cancel it — and a successful result is
appended to the shared list. -/
theorem esStep_probing (probe : Nat → Option IPResult) (tc : String) (n : Nat)
    (s : EarlyStopState) (i : Nat) (h : s.phases[i]? = some TaskPhase.probing) :
    (esStep probe tc n s i).phases[i]? = some (TaskPhase.done (probe i)) ∧
    (esStep probe tc n s i).results = s.results ++ (probe i).toList := by
  have hlen : i < s.phases.length := (List.getElem?_eq_some.mp h).1
  cases hp : probe i with
  | none =>
    rw [esStep_eq_probing_none probe tc n s i h hp]
    simp [List.getElem?_set_self hlen, Option.toList]
  | some r =>
    rw [esStep_eq_probing_some probe tc n s i r h hp]
    simp [List.getElem?_set_self hlen, Option.toList]

/-- Claim C1: in `test_ips_with_early_stop`, under every interleaving:
once the stop event is set it stays set; a candidate whose task has not
yet passed the admission point (it is at the pre-semaphore check or queued
on the semaphore) when the stop event is already set never reaches the
probing phase and can only finish as `done None` — no probe is performed
for it; results already appended are never removed by later steps, so they
are all contained in the returned list; and a task already admitted
(probe in flight) always completes its probe when scheduled, its
successful result being appended to the shared results list regardless of
the stop event. -/
theorem claim_C1_early_stop_no_admission_after_stop :
    (∀ (probe : Nat → Option IPResult) (tc : String) (n : Nat)
        (s : EarlyStopState) (sched : List Nat),
        s.stopSet = true → (esRun probe tc n s sched).stopSet = true) ∧
    (∀ (probe : Nat → Option IPResult) (tc : String) (n : Nat)
        (s : EarlyStopState) (sched : List Nat) (i : Nat),
        s.stopSet = true →
        (s.phases[i]? = some TaskPhase.start ∨ s.phases[i]? = some TaskPhase.waiting) →
        ((esRun probe tc n s sched).phases[i]? = some TaskPhase.start ∨
         (esRun probe tc n s sched).phases[i]? = some TaskPhase.waiting ∨
         (esRun probe tc n s sched).phases[i]? = some (TaskPhase.done none))) ∧
    (∀ (probe : Nat → Option IPResult) (tc : String) (n : Nat)
        (s : EarlyStopState) (sched : List Nat),
        ∃ tail, (esRun probe tc n s sched).results = s.results ++ tail) ∧
    (∀ (probe : Nat → Option IPResult) (tc : String) (n : Nat)
        (s : EarlyStopState) (i : Nat),
        s.phases[i]? = some TaskPhase.probing →
        ((esStep probe tc n s i).phases[i]? = some (TaskPhase.done (probe i)) ∧
         (esStep probe tc n s i).results = s.results ++ (probe i).toList)) :=
  ⟨fun probe tc n s sched => esRun_stop_mono probe tc n sched s,
   fun probe tc n s sched i hstop hi =>
     esRun_blocked probe tc n sched s i hstop
       (hi.elim Or.inl (fun h => Or.inr (Or.inl h))),
   fun probe tc n s sched => esRun_results probe tc n sched s,
   fun probe tc n s i => esStep_probing probe tc n s i⟩
